import Mathlib

/-!
Verification of the illuminatus asset metadata / query front-end code.

Definitions are shallow embeddings of the JavaScript / CoffeeScript source:
  * `TAG_PATTERNS`, `classify`   — src/illuminatus/static/src/tags.jsx (Tags)
  * `countTags`                  — src/illuminatus/static/src/tags.jsx
  * `toggle`                     — src/static/js/controllers.coffee ($scope.goto)
  * `parseTags`                  — src/static/js/controllers.coffee ($scope.activeTags)
  * `setTag`, `clearTag`         — src/static/js/services.coffee (Photo)
  * `undoLastFilter`             — src/illuminatus/static/assets.js
  * `Thumbs` state machine       — src/illuminatus/static/thumbs.js
  * `moveCursorLabel`            — src/illuminatus/static/src/label.jsx
  * `score`, `tagSimilarQuery`   — similarity subsystem (server side, modelled
                                   from the spec where the code is not present)
-/

namespace Illuminatus

/-! ### A tiny anchored-regex engine

The tag patterns in tags.jsx are all anchored (`^...$`) regexes built from
literals, character classes (`\d`, `\S`, `.`), alternation, concatenation and
star.  We embed them as an AST and match by Brzozowski derivatives; `rmatch`
is full-string (anchored) matching, exactly the semantics of `re.test` for a
`^...$` pattern. -/

inductive Re : Type
  | emp : Re
  | eps : Re
  | cls : (Char → Bool) → Re
  | alt : Re → Re → Re
  | cat : Re → Re → Re
  | star : Re → Re

namespace Re

def nullable : Re → Bool
  | emp => false
  | eps => true
  | cls _ => false
  | alt a b => nullable a || nullable b
  | cat a b => nullable a && nullable b
  | star _ => true

def deriv : Re → Char → Re
  | emp, _ => emp
  | eps, _ => emp
  | cls p, c => if p c then eps else emp
  | alt a b, c => alt (deriv a c) (deriv b c)
  | cat a b, c =>
      if nullable a then alt (cat (deriv a c) b) (deriv b c)
      else cat (deriv a c) b
  | star a, c => cat (deriv a c) (star a)

def rmatch (r : Re) (s : List Char) : Bool :=
  nullable (s.foldl deriv r)

/-- Literal character. -/
def chr (c : Char) : Re := cls (fun d => d == c)

/-- Literal string. -/
def str (s : String) : Re := s.data.foldr (fun c r => cat (chr c) r) eps

/-- `\d` — ASCII digit class. -/
def digit : Re := cls Char.isDigit

/-- `\S` — non-whitespace class. -/
def nonspace : Re := cls (fun c => !c.isWhitespace)

/-- `.` — any character (no newlines appear in tags). -/
def anych : Re := cls (fun _ => true)

/-- `r+`. -/
def plus (r : Re) : Re := cat r (star r)

end Re

/-- The `(st|nd|rd|th)` ordinal-suffix alternation. -/
def ordSuffix : Re :=
  Re.alt (Re.str "st") (Re.alt (Re.str "nd") (Re.alt (Re.str "rd") (Re.str "th")))

/-- One entry of `TAG_PATTERNS`: an anchored regex plus its fixed hue and the
display block (0 = date, 1 = time, 2 = camera, 3 = geo, 4 = user). -/
structure TagPattern where
  re : Re
  hue : Nat
  block : Nat

/-- The ordered rule list `TAG_PATTERNS` from tags.jsx, in source order. -/
def TAG_PATTERNS : List TagPattern := [
  -- Year.
  ⟨Re.cat (Re.alt (Re.str "19") (Re.str "20")) (Re.cat Re.digit Re.digit), 90, 0⟩,
  -- Month.
  ⟨Re.str "january", 120, 0⟩,
  ⟨Re.str "february", 120, 0⟩,
  ⟨Re.str "march", 120, 0⟩,
  ⟨Re.str "april", 120, 0⟩,
  ⟨Re.str "may", 120, 0⟩,
  ⟨Re.str "june", 120, 0⟩,
  ⟨Re.str "july", 120, 0⟩,
  ⟨Re.str "august", 120, 0⟩,
  ⟨Re.str "september", 120, 0⟩,
  ⟨Re.str "october", 120, 0⟩,
  ⟨Re.str "november", 120, 0⟩,
  ⟨Re.str "december", 120, 0⟩,
  -- Day of month.
  ⟨Re.cat Re.digit ordSuffix, 150, 0⟩,
  ⟨Re.cat Re.digit (Re.cat Re.digit ordSuffix), 150, 0⟩,
  -- Day of week.
  ⟨Re.str "sunday", 180, 0⟩,
  ⟨Re.str "monday", 180, 0⟩,
  ⟨Re.str "tuesday", 180, 0⟩,
  ⟨Re.str "wednesday", 180, 0⟩,
  ⟨Re.str "thursday", 180, 0⟩,
  ⟨Re.str "friday", 180, 0⟩,
  ⟨Re.str "saturday", 180, 0⟩,
  -- Time of day.
  ⟨Re.str "12am", 210, 1⟩,
  ⟨Re.cat Re.digit (Re.str "am"), 210, 1⟩,
  ⟨Re.cat Re.digit (Re.cat Re.digit (Re.str "am")), 210, 1⟩,
  ⟨Re.str "12pm", 210, 1⟩,
  ⟨Re.cat Re.digit (Re.str "pm"), 210, 1⟩,
  ⟨Re.cat Re.digit (Re.cat Re.digit (Re.str "pm")), 210, 1⟩,
  -- Camera.
  ⟨Re.cat (Re.str "kit:") (Re.plus Re.nonspace), 240, 2⟩,
  -- Aperture.
  ⟨Re.cat (Re.str "Ć’-") Re.digit, 240, 2⟩,
  ⟨Re.cat (Re.str "Ć’-") (Re.cat Re.digit Re.digit), 240, 2⟩,
  ⟨Re.cat (Re.str "Ć’-") (Re.cat Re.digit (Re.cat Re.digit Re.digit)), 240, 2⟩,
  -- Focal length.
  ⟨Re.cat Re.digit (Re.str "mm"), 240, 2⟩,
  ⟨Re.cat Re.digit (Re.cat Re.digit (Re.str "mm")), 240, 2⟩,
  ⟨Re.cat Re.digit (Re.cat Re.digit (Re.cat Re.digit (Re.str "mm"))), 240, 2⟩,
  ⟨Re.cat Re.digit (Re.cat Re.digit (Re.cat Re.digit (Re.cat Re.digit (Re.str "mm")))), 240, 2⟩,
  -- Geolocation.
  ⟨Re.cat (Re.str "country:") (Re.plus Re.nonspace), 270, 3⟩,
  ⟨Re.cat (Re.str "state:") (Re.plus Re.nonspace), 270, 3⟩,
  ⟨Re.cat (Re.str "city:") (Re.plus Re.nonspace), 270, 3⟩,
  ⟨Re.cat (Re.str "place:") (Re.plus Re.nonspace), 270, 3⟩,
  -- User-defined.
  ⟨Re.star Re.anych, 0, 4⟩]

/-- The classification record assigned to a tag: its rule's hue, its display
block (group), and `order` = the index of the matching rule in
`TAG_PATTERNS` (the code stores the `some` callback index `p` as `tag.order`). -/
structure TagInfo where
  hue : Nat
  block : Nat
  order : Nat
deriving DecidableEq, Repr

/-- First-match scan of a pattern list, mirroring
`TAG_PATTERNS.some((pattern, p) => ...)` in tags.jsx: the first pattern whose
anchored regex matches the whole tag supplies hue/block, and its index is the
tag's `order`. -/
def classifyAux : List TagPattern → Nat → String → Option TagInfo
  | [], _, _ => none
  | p :: ps, i, t =>
      if p.re.rmatch t.data then some ⟨p.hue, p.block, i⟩ else classifyAux ps (i + 1) t

/-- Classify one tag string against `TAG_PATTERNS` (tags.jsx `Tags`). -/
def classify (t : String) : Option TagInfo := classifyAux TAG_PATTERNS 0 t

/-- The twelve month names, in calendar order, as they appear in the month
rules of `TAG_PATTERNS` (rule indices 1 through 12). -/
def monthNames : List String :=
  ["january", "february", "march", "april", "may", "june",
   "july", "august", "september", "october", "november", "december"]

/-! ### Asset records -/

/-- The slice of an asset record the embedded operations touch: its id, its
tag list and its capture stamp (an integer timestamp stands in for the
ISO string). -/
structure Asset where
  id : Nat
  tags : List String
  stamp : Int
deriving DecidableEq, Repr

/-! ### Query toggling and parsing (controllers.coffee) -/

/-- Remove the first occurrence of `t` from a list, the effect of
`q.splice(_.indexOf(q, t), 1)` when the index is nonnegative. -/
def removeFirst : List String → String → List String
  | [], _ => []
  | x :: xs, t => if x = t then xs else x :: removeFirst xs t

/-- `$scope.goto` (controllers.coffee): toggle a tag in the active query.  If
the tag occurs, its first occurrence is spliced out; otherwise it is pushed at
the end. -/
def toggle (q : List String) (t : String) : List String :=
  if q.contains t then removeFirst q t else q ++ [t]

/-- Hex digit value, for percent-decoding, working on raw code points
(48–57 are the digits, 97–102 and 65–70 the lower and upper hex letters). -/
def hexDigitVal (c : Char) : Option Nat :=
  let n := c.toNat
  if 48 ≤ n ∧ n ≤ 57 then some (n - 48)
  else if 97 ≤ n ∧ n ≤ 102 then some (n - 87)
  else if 65 ≤ n ∧ n ≤ 70 then some (n - 55)
  else none

/-- A unit of a percent-encoded string: either a character that stood outside
any escape, or the byte value of one `%XY` escape. -/
inductive Tok : Type
  | raw : Char → Tok
  | byte : Nat → Tok

/-- First phase of Javascript `decodeURIComponent`: read off the `%XY`
escapes.  A `%` not followed by two hex digits raises `URIError` in the
program, modelled as `none`. -/
def tokenize : List Char → Option (List Tok)
  | [] => some []
  | '%' :: a :: b :: rest =>
      match hexDigitVal a, hexDigitVal b with
      | some x, some y => (tokenize rest).map (Tok.byte (16 * x + y) :: ·)
      | _, _ => none
  | '%' :: _ => none
  | c :: rest => (tokenize rest).map (Tok.raw c :: ·)

/-- Second phase of Javascript `decodeURIComponent`: UTF-8-decode the escape
bytes, letting raw characters pass through.  A lone or ill-formed
continuation, an overhigh lead byte, or a code point in the surrogate range
or beyond U+10FFFF raises `URIError` in the program, modelled as `none`.
(A four-byte sequence becomes one code point here where a Javascript string
holds a surrogate pair; no statement below depends on that difference.) -/
def utf8Decode : List Tok → Option (List Char)
  | [] => some []
  | Tok.raw c :: rest => (utf8Decode rest).map (c :: ·)
  | Tok.byte b :: rest =>
      if b < 128 then (utf8Decode rest).map (Char.ofNat b :: ·)
      else if 192 ≤ b ∧ b ≤ 223 then
        match rest with
        | Tok.byte b2 :: rest2 =>
            if 128 ≤ b2 ∧ b2 ≤ 191 then
              (utf8Decode rest2).map (Char.ofNat ((b % 32) * 64 + b2 % 64) :: ·)
            else none
        | _ => none
      else if 224 ≤ b ∧ b ≤ 239 then
        match rest with
        | Tok.byte b2 :: Tok.byte b3 :: rest2 =>
            if 128 ≤ b2 ∧ b2 ≤ 191 ∧ 128 ≤ b3 ∧ b3 ≤ 191 then
              let cp := (b % 16) * 4096 + (b2 % 64) * 64 + b3 % 64
              if 55296 ≤ cp ∧ cp ≤ 57343 then none
              else (utf8Decode rest2).map (Char.ofNat cp :: ·)
            else none
        | _ => none
      else if 240 ≤ b ∧ b ≤ 244 then
        match rest with
        | Tok.byte b2 :: Tok.byte b3 :: Tok.byte b4 :: rest2 =>
            if 128 ≤ b2 ∧ b2 ≤ 191 ∧ 128 ≤ b3 ∧ b3 ≤ 191 ∧ 128 ≤ b4 ∧ b4 ≤ 191 then
              let cp := (b % 8) * 262144 + (b2 % 64) * 4096 + (b3 % 64) * 64 + b4 % 64
              if cp ≤ 1114111 then (utf8Decode rest2).map (Char.ofNat cp :: ·)
              else none
            else none
        | _ => none
      else none

/-- Model of Javascript `decodeURIComponent`: percent-escapes are read and
UTF-8-decoded, other characters pass through; a malformed or truncated
escape sequence raises `URIError`, modelled as `none`. -/
def decodeURIComponent (s : String) : Option String :=
  match tokenize s.data with
  | some toks =>
      match utf8Decode toks with
      | some cs => some (String.mk cs)
      | none => none
  | none => none

/-- Javascript `"...".split('|')` on the character list: the (possibly empty)
segments between `|` delimiters; the empty string yields one empty segment. -/
def splitSegs : List Char → List (List Char)
  | [] => [[]]
  | '|' :: rest => [] :: splitSegs rest
  | c :: rest =>
      match splitSegs rest with
      | [] => [[c]]
      | seg :: segs => (c :: seg) :: segs

/-- Decode every segment, as the comprehension
`decodeURIComponent(x) for x in tags.split('|')` does: a `URIError` on any
segment aborts the whole parse. -/
def decodeSegs : List (List Char) → Option (List String)
  | [] => some []
  | seg :: segs =>
      match decodeURIComponent (String.mk seg), decodeSegs segs with
      | some t, some ts => some (t :: ts)
      | _, _ => none

/-- `$scope.activeTags` (controllers.coffee): split the route's tag string on
the `|` delimiter, percent-decode each segment, and keep only segments of
positive length; a `URIError` from any segment aborts the parse (`none`). -/
def parseTags (s : String) : Option (List String) :=
  (decodeSegs (splitSegs s.data)).map (fun ts => ts.filter (fun t => t.length > 0))

/-- Modelled from the spec: the conjunctive tag predicate of §4.3 — an asset
matches a parsed query iff its tag list contains every query segment (the
empty query matches all assets).  The predicate itself lives server-side and
is not under src/. -/
def matchesQuery (query : List String) (assetTags : List String) : Bool :=
  query.all (fun t => assetTags.contains t)

/-! ### Tag mutations (services.coffee Photo) -/

/-- `Photo.setTag` (services.coffee): push the tag and save unless the photo
already has it.  The boolean reports whether a save was issued. -/
def setTag (tags : List String) (t : String) : List String × Bool :=
  if tags.contains t then (tags, false) else (tags ++ [t], true)

/-- `Photo.clearTag` (services.coffee): splice out the first occurrence and
save if the tag is present; otherwise do nothing. -/
def clearTag (tags : List String) (t : String) : List String × Bool :=
  if tags.contains t then (removeFirst tags t, true) else (tags, false)

/-! ### Filter pipeline (assets.js) -/

/-- One committed filter record as stored in `rec.filters`: the code reads
`filters[L - 1].filter` (the kind name) when undoing. -/
structure Filter where
  filter : String
deriving DecidableEq, Repr

/-- Modelled from the spec: `removeAt(index)` of §4.2 — the server-side
handler behind `DELETE /asset/id/filters/kind/index` removes the filter at
that index from the ordered list.  The handler itself is not under src/. -/
def removeAt (fs : List Filter) (i : Nat) : List Filter := fs.eraseIdx i

/-- `Illuminatus.Asset.undoLastFilter` (assets.js): when the filter list is
non-empty, issue `removeFilter(filters[L-1].filter, L-1)`; on an empty list do
nothing (no request, `undefined` result).  The result pairs the filter whose
removal was requested (None when empty) with the filter list after the
removal is applied. -/
def undoLastFilter (fs : List Filter) : Option Filter × List Filter :=
  if fs.length > 0 then (fs.get? (fs.length - 1), removeAt fs (fs.length - 1))
  else (none, fs)

/-! ### Pagination (thumbs.js fetch, hooks.jsx / utils.jsx useAssets) -/

/-- Modelled from the spec: the §4.5 / §6 pagination convention — a page is
the matching assets with `offset` items skipped and at most `limit` items
returned.  The query endpoint is server-side, not under src/. -/
def queryPage (matching : List Asset) (offset limit : Nat) : List Asset :=
  (matching.drop offset).take limit

/-- thumbs.js done handler: `self.exhausted = data.assets.length < limit`. -/
def exhaustedAfter (page : List Asset) (limit : Nat) : Bool :=
  page.length < limit

/-- hooks.jsx `useAssets`: `setHasMore(res.data.length >= limit)`. -/
def hasMoreAfter (page : List Asset) (limit : Nat) : Bool :=
  page.length ≥ limit

/-- utils.jsx `useAssets`: `loadNext` recurses iff
`batch && res.length === batch` — a zero (falsy) batch never keeps
loading. -/
def keepsLoading (page : List Asset) (batch : Nat) : Bool :=
  (batch != 0) && (page.length == batch)

/-! ### Thumbs state machine (thumbs.js) -/

/-- The mutable fields of `Illuminatus.Thumbs` that `setQuery`, `setCursor`
and `fetch` read and write.  `query` is `null` at construction; `cursor` and
`asset` are `null` whenever there is no current asset. -/
structure Thumbs where
  query : Option String
  assets : List Asset
  asset : Option Asset
  cursor : Option Int
  loading : Bool
  exhausted : Bool
deriving DecidableEq, Repr

/-- `Illuminatus.Thumbs.setQuery`: a repeated query is ignored; a new query
clears the thumbnails and resets the cursor, loading and exhausted flags. -/
def Thumbs.setQuery (s : Thumbs) (q : String) : Thumbs :=
  if s.query = some q then s
  else { query := some q, assets := [], asset := none, cursor := none,
         loading := false, exhausted := false }

/-- `Illuminatus.Thumbs.setCursor` (numeric index case): with no assets the
cursor and current asset become null; an in-range index becomes the cursor
with `assets[idx]` the current asset; an out-of-range index is ignored. -/
def Thumbs.setCursor (s : Thumbs) (idx : Int) : Thumbs :=
  if s.assets.length = 0 then { s with asset := none, cursor := none }
  else if 0 ≤ idx ∧ idx < (s.assets.length : Int) then
    { s with asset := s.assets.get? idx.toNat, cursor := some idx }
  else s

/-- `Illuminatus.Thumbs.incCursor`: `setCursor(this.cursor + (n || 1))`.  A
null cursor coerces to 0 in the Javascript addition, and `n || 1` turns a
zero increment into 1. -/
def Thumbs.incCursor (s : Thumbs) (n : Int) : Thumbs :=
  s.setCursor (s.cursor.getD 0 + (if n = 0 then 1 else n))

/-- `Illuminatus.Thumbs.decCursor`: `setCursor(this.cursor - (n || 1))`. -/
def Thumbs.decCursor (s : Thumbs) (n : Int) : Thumbs :=
  s.setCursor (s.cursor.getD 0 - (if n = 0 then 1 else n))

/-- `Illuminatus.Thumbs.fetch`, with the asynchronous round trip flattened:
`page` is the asset list the server answers with.  When `loading` or
`exhausted` is set, or the limit is zero, no request is issued (second
component `false`) and the state is untouched; otherwise the done handler
records exhaustion (`page.length < limit`), appends the page, clears
`loading`, and sets the cursor to 0 when assets exist and the cursor was
null. -/
def Thumbs.fetch (s : Thumbs) (limit : Nat) (page : List Asset) : Thumbs × Bool :=
  if s.loading || s.exhausted then (s, false)
  else if limit = 0 then (s, false)
  else
    let s1 : Thumbs := { s with loading := false,
                                exhausted := decide (page.length < limit),
                                assets := s.assets ++ page }
    (if s1.assets.length > 0 ∧ s1.cursor = none then s1.setCursor 0 else s1, true)

/-- The cursor-bounds invariant of the thumbs state: either the cursor and
current asset are both null, or the cursor is an index `i` into `assets`
whose current asset is `assets[i]`. -/
def ThumbsInv (s : Thumbs) : Prop :=
  (s.cursor = none ∧ s.asset = none) ∨
  (∃ i : Nat, s.cursor = some (i : Int) ∧ i < s.assets.length ∧
    s.asset = s.assets.get? i)

/-- `moveCursor` (label.jsx): the next cursor is
`Math.max(0, Math.min(cur + inc, assets.length - 1))`. -/
def moveCursorLabel (cur inc : Int) (len : Nat) : Int :=
  max 0 (min (cur + inc) ((len : Int) - 1))

/-! ### countTags (tags.jsx) -/

/-- One `counts[t] = (counts[t] || 0) + 1` step on the counts object,
modelled as an insertion-ordered association list. -/
def bump (m : List (String × Nat)) (t : String) : List (String × Nat) :=
  if (m.lookup t).isSome then
    m.map (fun kv => if kv.1 = t then (kv.1, kv.2 + 1) else kv)
  else m ++ [(t, 1)]

/-- `countTags` (tags.jsx): `(assets || []).forEach(({tags}) => ...)` — a null
or undefined argument is replaced by the empty list, then every tag of every
asset bumps its count. -/
def countTags (assets : Option (List Asset)) : List (String × Nat) :=
  (assets.getD []).foldl (fun m a => a.tags.foldl bump m) []

/-! ### Tag similarity (spec §4.4; the endpoint is server-side) -/

/-- Modelled from the spec: the §4.4 Jaccard tag-similarity score
|tags(A) ∩ tags(B)| / |tags(A) ∪ tags(B)|, over the assets' tag sets.  The
scoring code is server-side, not under src/; utils.jsx `Related` only issues
the query with `min=0.3`. -/
def score (A B : Asset) : ℚ :=
  ((A.tags.toFinset ∩ B.tags.toFinset).card : ℚ) /
    ((A.tags.toFinset ∪ B.tags.toFinset).card : ℚ)

/-- Descending-score order relative to a query asset `A` (ties permitted). -/
def scoreGE (A : Asset) (B C : Asset) : Prop := score A C ≤ score A B

instance (A : Asset) : DecidableRel (scoreGE A) := fun B C =>
  inferInstanceAs (Decidable (score A C ≤ score A B))

/-- Modelled from the spec: the §4.4 tag-similarity query — all assets other
than `A` itself whose score reaches the caller's minimum, ordered by
descending score. -/
def tagSimilarQuery (db : List Asset) (A : Asset) (minScore : ℚ) : List Asset :=
  List.insertionSort (scoreGE A)
    (db.filter (fun B => B.id != A.id && decide (minScore ≤ score A B)))

/-! ## Theorems -/

theorem rmatch_cons (r : Re) (c : Char) (s : List Char) :
    (r.rmatch (c :: s)) = ((r.deriv c).rmatch s) := rfl

theorem rmatch_alt (a b : Re) (s : List Char) :
    ((Re.alt a b).rmatch s) = (a.rmatch s || b.rmatch s) := by
  induction s generalizing a b with
  | nil => rfl
  | cons c s ih => rw [rmatch_cons, Re.deriv, ih, ← rmatch_cons, ← rmatch_cons]

theorem rmatch_cat_emp (r : Re) (s : List Char) :
    ((Re.cat Re.emp r).rmatch s) = false := by
  induction s with
  | nil => rfl
  | cons c s ih => rw [rmatch_cons]; simpa [Re.deriv, Re.nullable] using ih

theorem rmatch_cat_eps (r : Re) (s : List Char) :
    ((Re.cat Re.eps r).rmatch s) = (r.rmatch s) := by
  induction s with
  | nil => simp [Re.rmatch, Re.nullable]
  | cons c s _ =>
      rw [rmatch_cons, rmatch_cons]
      have h : (Re.cat Re.eps r).deriv c = Re.alt (Re.cat Re.emp r) (r.deriv c) := rfl
      rw [h, rmatch_alt, rmatch_cat_emp, Bool.false_or]

theorem rmatch_star_anych (s : List Char) : ((Re.star Re.anych).rmatch s) = true := by
  induction s with
  | nil => rfl
  | cons c s ih =>
      rw [rmatch_cons]
      have h : (Re.star Re.anych).deriv c = Re.cat Re.eps (Re.star Re.anych) := rfl
      rw [h, rmatch_cat_eps, ih]

theorem classifyAux_spec (ps : List TagPattern) :
    ∀ (k : Nat) (t : String) (i : Nat) (pat : TagPattern),
      ps.get? i = some pat →
      pat.re.rmatch t.data = true →
      (∀ j q, j < i → ps.get? j = some q → q.re.rmatch t.data = false) →
      classifyAux ps k t = some ⟨pat.hue, pat.block, k + i⟩ := by
  induction ps with
  | nil => intro k t i pat h; simp at h
  | cons p ps ih =>
      intro k t i pat hget hmatch hearlier
      cases i with
      | zero =>
          simp only [List.get?] at hget
          cases hget
          simp [classifyAux, hmatch]
      | succ i =>
          have hp : p.re.rmatch t.data = false := hearlier 0 p (Nat.succ_pos i) rfl
          simp only [List.get?] at hget
          have := ih (k + 1) t i pat hget hmatch
            (fun j q hj hq => hearlier (j + 1) q (Nat.succ_lt_succ hj) hq)
          simp only [classifyAux, hp, Bool.false_eq_true, if_false, this]
          congr 1
          simp [Nat.add_assoc, Nat.add_comm 1 i]

/-- Claim C1: `classify` is first-match-wins over the ordered `TAG_PATTERNS`
list — whenever rule `i` matches a tag and no earlier rule does, the tag gets
rule `i`'s hue and block with `order = i`; every month name gets the month
rule (hue 120, date block 0, order = its calendar position); and the
catch-all user rule is the last rule of the 41-entry list and matches every
string, so ordering is what keeps month names out of the user group. -/
theorem tag_classifier_first_match_wins :
    (∀ (t : String) (i : Nat) (pat : TagPattern),
        TAG_PATTERNS.get? i = some pat →
        pat.re.rmatch t.data = true →
        (∀ j q, j < i → TAG_PATTERNS.get? j = some q → q.re.rmatch t.data = false) →
        classify t = some ⟨pat.hue, pat.block, i⟩) ∧
    (∀ i, i < 12 → classify (monthNames.getD i "") = some ⟨120, 0, i + 1⟩) ∧
    (∀ t : String, ((Re.star Re.anych).rmatch t.data) = true) ∧
    TAG_PATTERNS.get? 40 = some ⟨Re.star Re.anych, 0, 4⟩ ∧
    TAG_PATTERNS.length = 41 := by
  refine ⟨fun t i pat hget hmatch hearlier => ?_, by decide,
    fun t => rmatch_star_anych t.data, rfl, rfl⟩
  simpa using classifyAux_spec TAG_PATTERNS 0 t i pat hget hmatch hearlier

/-- Witness for C1: the tag `"march"` (month list position 2) classifies to
the month rule: hue 120, date block 0, rule index 3. -/
theorem tag_classifier_first_match_wins_witness :
    classify (monthNames.getD 2 "") = some ⟨120, 0, 3⟩ :=
  tag_classifier_first_match_wins.2.1 2 (by norm_num)

theorem contains_iff (q : List String) (t : String) : q.contains t = true ↔ t ∈ q :=
  List.elem_iff

theorem removeFirst_eq_erase (q : List String) (t : String) :
    removeFirst q t = q.erase t := by
  induction q with
  | nil => rfl
  | cons x xs ih =>
      by_cases h : x = t
      · simp [removeFirst, List.erase_cons, h]
      · simp [removeFirst, List.erase_cons, h, ih]

theorem removeFirst_append_self (q : List String) (t : String) (h : t ∉ q) :
    removeFirst (q ++ [t]) t = q := by
  induction q with
  | nil => simp [removeFirst]
  | cons x xs ih =>
      have hx : x ≠ t := fun hxt => h (hxt ▸ List.mem_cons_self x xs)
      simp only [List.cons_append, removeFirst, if_neg hx]
      exact congrArg (x :: ·) (ih (fun hm => h (List.mem_cons_of_mem x hm)))

/-- Claim C2 counterexample: toggling removes the first occurrence but
re-toggling appends at the end, so on the query `["a", "b"]` a double toggle
of `"a"` yields `["b", "a"]`, not the original query. -/
theorem toggle_involution_counterexample :
    toggle (toggle ["a", "b"] "a") "a" = ["b", "a"] ∧
    (["b", "a"] : List String) ≠ ["a", "b"] := by decide

/-- Claim C2 amended: the double toggle restores the query exactly when the
tag was absent; when the tag occurs exactly once the double toggle yields a
permutation of the query (its occurrence moves to the end, so the same
conjunctive predicate); with duplicate occurrences even that fails. -/
theorem toggle_involution_amended :
    (∀ (q : List String) (t : String), t ∉ q → toggle (toggle q t) t = q) ∧
    (∀ (q : List String) (t : String), q.count t ≤ 1 → (toggle (toggle q t) t).Perm q) := by
  have habsent : ∀ (q : List String) (t : String), t ∉ q → toggle (toggle q t) t = q := by
    intro q t h
    have hc : q.contains t = false := by
      cases hval : q.contains t with
      | false => rfl
      | true => exact absurd ((contains_iff q t).mp hval) h
    have h1 : toggle q t = q ++ [t] := by
      simp only [toggle, hc, Bool.false_eq_true, if_false]
    have hc2 : (q ++ [t]).contains t = true :=
      (contains_iff _ t).mpr (List.mem_append_right q (List.mem_singleton_self t))
    rw [h1]
    simp only [toggle, hc2, if_true]
    exact removeFirst_append_self q t h
  refine ⟨habsent, fun q t hcount => ?_⟩
  by_cases hmem : t ∈ q
  · have hc : q.contains t = true := (contains_iff q t).mpr hmem
    have h1 : toggle q t = q.erase t := by
      simp only [toggle, hc, if_true, removeFirst_eq_erase]
    have hzero : (q.erase t).count t = 0 := by
      have := List.count_erase_self t q
      omega
    have hnot : t ∉ q.erase t := List.count_eq_zero.mp hzero
    have h2 : toggle (q.erase t) t = q.erase t ++ [t] := by
      have hc2 : (q.erase t).contains t = false := by
        cases hval : (q.erase t).contains t with
        | false => rfl
        | true => exact absurd ((contains_iff _ t).mp hval) hnot
      simp only [toggle, hc2, Bool.false_eq_true, if_false]
    rw [h1, h2]
    exact (List.perm_append_singleton t (q.erase t)).trans (List.perm_cons_erase hmem).symm
  · rw [habsent q t hmem]

/-- Witness for C2 (amended): toggling `"c"` twice on `["a", "b"]` restores
the query, and the permutation form holds there as well. -/
theorem toggle_involution_amended_witness :
    toggle (toggle ["a", "b"] "c") "c" = ["a", "b"] ∧
    (toggle (toggle ["a", "b"] "c") "c").Perm ["a", "b"] :=
  ⟨toggle_involution_amended.1 ["a", "b"] "c" (by decide),
   toggle_involution_amended.2 ["a", "b"] "c" (by decide)⟩

/-- Claim C3: a page served by the spec's pagination convention holds at most
`limit` assets; the thumbs.js exhausted flag is set exactly when the page is
strictly shorter than `limit`; the hooks.jsx has-more flag is set exactly
when the page reaches the page size; the utils.jsx keep-loading test agrees
with has-more for every positive page size, while its `batch &&` guard stops
loading unconditionally at batch 0; and exhausted is the negation of
has-more. -/
theorem pagination_exhausted_iff :
    ∀ (matching : List Asset) (offset limit : Nat),
      (queryPage matching offset limit).length ≤ limit ∧
      (exhaustedAfter (queryPage matching offset limit) limit = true ↔
        (queryPage matching offset limit).length < limit) ∧
      (hasMoreAfter (queryPage matching offset limit) limit = true ↔
        (queryPage matching offset limit).length = limit) ∧
      (0 < limit →
        keepsLoading (queryPage matching offset limit) limit =
          hasMoreAfter (queryPage matching offset limit) limit) ∧
      keepsLoading (queryPage matching offset limit) 0 = false ∧
      exhaustedAfter (queryPage matching offset limit) limit =
        !hasMoreAfter (queryPage matching offset limit) limit := by
  intro matching offset limit
  have hlen : (queryPage matching offset limit).length ≤ limit := by
    simp [queryPage]
  refine ⟨hlen, ?_, ?_, ?_, ?_, ?_⟩
  · simp [exhaustedAfter]
  · constructor
    · intro h
      have := of_decide_eq_true (by simpa [hasMoreAfter] using h)
      omega
    · intro h
      simp [hasMoreAfter, h]
  · intro hpos
    have hne : (limit != 0) = true := by
      simpa using Nat.pos_iff_ne_zero.mp hpos
    rw [Bool.eq_iff_iff]
    simp only [keepsLoading, hasMoreAfter, hne, Bool.true_and, beq_iff_eq, ge_iff_le,
      decide_eq_true_eq]
    omega
  · simp [keepsLoading]
  · rw [Bool.eq_iff_iff]
    simp only [exhaustedAfter, hasMoreAfter, ge_iff_le, Bool.not_eq_true', decide_eq_true_eq,
      decide_eq_false_iff_not, not_le]

/-- Witness for C3: with three matching assets, offset 0 and page size 2,
the full page keeps the utils.jsx loader going, in agreement with the
has-more flag. -/
theorem pagination_exhausted_iff_witness :
    keepsLoading (queryPage [⟨1, [], 0⟩, ⟨2, [], 0⟩, ⟨3, [], 0⟩] 0 2) 2 =
      hasMoreAfter (queryPage [⟨1, [], 0⟩, ⟨2, [], 0⟩, ⟨3, [], 0⟩] 0 2) 2 :=
  (pagination_exhausted_iff [⟨1, [], 0⟩, ⟨2, [], 0⟩, ⟨3, [], 0⟩] 0 2).2.2.2.1 (by norm_num)

theorem eraseIdx_length_sub_one {α : Type} (l : List α) :
    l.eraseIdx (l.length - 1) = l.dropLast := by
  induction l with
  | nil => rfl
  | cons a t ih =>
      cases t with
      | nil => rfl
      | cons b t2 =>
          have h1 : (a :: b :: t2).length - 1 = (b :: t2).length := by simp
          have h2 : (b :: t2).length = (b :: t2).length - 1 + 1 := by simp
          rw [h1, h2, List.eraseIdx_cons_succ, ih,
            List.dropLast_cons_of_ne_nil (List.cons_ne_nil b t2)]

/-- Claim C4: on a non-empty filter list `undoLastFilter` requests removal of
the filter at index `len - 1` — the returned pair is that filter together
with `removeAt fs (len - 1)`, which equals dropping the last filter — and on
an empty list it is a no-op returning None with the list unchanged. -/
theorem undo_last_filter_spec :
    (∀ fs : List Filter, fs ≠ [] →
        undoLastFilter fs = (fs.get? (fs.length - 1), removeAt fs (fs.length - 1)) ∧
        (undoLastFilter fs).2 = fs.dropLast) ∧
    undoLastFilter ([] : List Filter) = (none, []) := by
  refine ⟨fun fs h => ?_, rfl⟩
  have hl : fs.length > 0 := List.length_pos.mpr h
  exact ⟨by simp [undoLastFilter, hl],
    by simp [undoLastFilter, hl, removeAt, eraseIdx_length_sub_one]⟩

/-- Witness for C4: undoing on the two-filter list `[rotate, crop]` removes
the trailing crop filter. -/
theorem undo_last_filter_spec_witness :
    undoLastFilter [⟨"rotate"⟩, ⟨"crop"⟩] =
      (some ⟨"crop"⟩, removeAt [⟨"rotate"⟩, ⟨"crop"⟩] 1) ∧
    (undoLastFilter [⟨"rotate"⟩, ⟨"crop"⟩]).2 = [⟨"rotate"⟩] :=
  (undo_last_filter_spec.1 [⟨"rotate"⟩, ⟨"crop"⟩] (by decide))

/-- Claim C5: tag similarity is the Jaccard ratio and a query with threshold
`m` returns exactly the other assets whose score reaches `m`, sorted by
descending score; on the spec's example A = {a,b,c}, B = {a,b,d} the score is
2/4 = 1/2, so threshold 1/2 includes B and threshold 51/100 excludes B. -/
theorem tag_similarity_jaccard :
    (∀ (db : List Asset) (A : Asset) (m : ℚ) (B : Asset),
        B ∈ tagSimilarQuery db A m ↔ B ∈ db ∧ B.id ≠ A.id ∧ m ≤ score A B) ∧
    (∀ (db : List Asset) (A : Asset) (m : ℚ),
        (tagSimilarQuery db A m).Sorted (scoreGE A)) ∧
    score ⟨1, ["a", "b", "c"], 0⟩ ⟨2, ["a", "b", "d"], 0⟩ = 1 / 2 ∧
    (⟨2, ["a", "b", "d"], 0⟩ : Asset) ∈
      tagSimilarQuery [⟨2, ["a", "b", "d"], 0⟩] ⟨1, ["a", "b", "c"], 0⟩ (1 / 2) ∧
    (⟨2, ["a", "b", "d"], 0⟩ : Asset) ∉
      tagSimilarQuery [⟨2, ["a", "b", "d"], 0⟩] ⟨1, ["a", "b", "c"], 0⟩ (51 / 100) := by
  have hmem : ∀ (db : List Asset) (A : Asset) (m : ℚ) (B : Asset),
      B ∈ tagSimilarQuery db A m ↔ B ∈ db ∧ B.id ≠ A.id ∧ m ≤ score A B := by
    intro db A m B
    simp [tagSimilarQuery, List.mem_insertionSort, List.mem_filter, bne_iff_ne,
      decide_eq_true_iff, and_assoc]
  have hscore : score ⟨1, ["a", "b", "c"], 0⟩ ⟨2, ["a", "b", "d"], 0⟩ = 1 / 2 := by
    have h1 : ((["a", "b", "c"] : List String).toFinset ∩
        (["a", "b", "d"] : List String).toFinset).card = 2 := by decide
    have h2 : ((["a", "b", "c"] : List String).toFinset ∪
        (["a", "b", "d"] : List String).toFinset).card = 4 := by decide
    rw [score]
    rw [show (⟨1, ["a", "b", "c"], 0⟩ : Asset).tags = ["a", "b", "c"] from rfl,
      show (⟨2, ["a", "b", "d"], 0⟩ : Asset).tags = ["a", "b", "d"] from rfl, h1, h2]
    norm_num
  refine ⟨hmem, fun db A m => ?_, hscore, ?_, ?_⟩
  · haveI : IsTotal Asset (scoreGE A) := ⟨fun B C => le_total (score A C) (score A B)⟩
    haveI : IsTrans Asset (scoreGE A) := ⟨fun B C D h1 h2 => le_trans h2 h1⟩
    exact List.sorted_insertionSort (scoreGE A) _
  · exact (hmem _ _ _ _).mpr ⟨List.mem_singleton_self _, by decide, by rw [hscore]⟩
  · intro hin
    have h := ((hmem _ _ _ _).mp hin).2.2
    rw [hscore] at h
    norm_num at h

theorem contains_append_self (tags : List String) (t : String) :
    (tags ++ [t]).contains t = true :=
  (contains_iff _ t).mpr (List.mem_append_right tags (List.mem_singleton_self t))

/-- Claim C6: re-adding a present tag and re-removing an absent tag are
no-ops that issue no save, and adding the same tag twice yields the same tag
list as adding it once. -/
theorem tag_mutation_idempotent :
    (∀ (tags : List String) (t : String), t ∈ tags → setTag tags t = (tags, false)) ∧
    (∀ (tags : List String) (t : String), t ∉ tags → clearTag tags t = (tags, false)) ∧
    (∀ (tags : List String) (t : String), (setTag (setTag tags t).1 t).1 = (setTag tags t).1) := by
  have hset : ∀ (tags : List String) (t : String), t ∈ tags → setTag tags t = (tags, false) := by
    intro tags t h
    simp only [setTag, (contains_iff tags t).mpr h, if_true]
  refine ⟨hset, ?_, ?_⟩
  · intro tags t h
    have hc : tags.contains t = false := by
      cases hval : tags.contains t with
      | false => rfl
      | true => exact absurd ((contains_iff tags t).mp hval) h
    simp only [clearTag, hc, Bool.false_eq_true, if_false]
  · intro tags t
    by_cases hmem : t ∈ tags
    · rw [hset tags t hmem]
      rw [hset tags t hmem]
    · have hc : tags.contains t = false := by
        cases hval : tags.contains t with
        | false => rfl
        | true => exact absurd ((contains_iff tags t).mp hval) hmem
      have h1 : setTag tags t = (tags ++ [t], true) := by
        simp only [setTag, hc, Bool.false_eq_true, if_false]
      rw [h1]
      simp only [setTag, contains_append_self, if_true]

/-- Witness for C6: re-adding `"x"` to `["x"]` is a save-free no-op,
re-removing `"y"` from `["x"]` is a save-free no-op, and double-adding `"y"`
equals single-adding it. -/
theorem tag_mutation_idempotent_witness :
    setTag ["x"] "x" = (["x"], false) ∧
    clearTag ["x"] "y" = (["x"], false) ∧
    (setTag (setTag ["x"] "y").1 "y").1 = (setTag ["x"] "y").1 :=
  ⟨tag_mutation_idempotent.1 ["x"] "x" (by decide),
   tag_mutation_idempotent.2.1 ["x"] "y" (by decide),
   tag_mutation_idempotent.2.2 ["x"] "y"⟩

/-- Claim C7 counterexample: a whitespace-only segment is not dropped — the
filter keeps every segment of positive length, so parsing the one-segment
query `" "` succeeds with the whitespace tag `" "`, not the empty list the
claimed empty/whitespace dropping would produce. -/
theorem permissive_parse_counterexample :
    parseTags " " = some [" "] ∧ (" " : String).data = [' '] ∧
    ([' '].all Char.isWhitespace) = true ∧ ([" "] : List String) ≠ [] := by decide

/-- Claim C7 amended: on every query string whose percent escapes decode,
parsing silently drops exactly the empty segments (whitespace-only segments
are kept), so every resulting segment is non-empty; the empty query parses to
the empty conjunction, which matches every asset; valid escapes decode
(`"a%20b|c"` → `["a b", "c"]`); but parsing is not error-free: a malformed
(`"%zz"`) or truncated (`"%C3"`) escape raises `URIError`, the one real
error path of `$scope.activeTags`. -/
theorem permissive_parse_amended :
    (∀ (s : String) (ts : List String) (t : String),
        parseTags s = some ts → t ∈ ts → t ≠ "") ∧
    parseTags "" = some [] ∧
    (∀ ts : List String, matchesQuery ((parseTags "").getD []) ts = true) ∧
    parseTags "a%20b|c" = some ["a b", "c"] ∧
    parseTags "%zz" = none ∧
    parseTags "%C3" = none := by
  have hnil : parseTags "" = some [] := by decide
  refine ⟨?_, hnil, fun ts => by rw [matchesQuery, hnil]; rfl, by decide, by decide, by decide⟩
  intro s ts t h ht hteq
  subst hteq
  rw [parseTags] at h
  cases hds : decodeSegs (splitSegs s.data) with
  | none => rw [hds] at h; simp at h
  | some ts0 =>
      rw [hds] at h
      simp at h
      subst h
      have := (List.mem_filter.mp ht).2
      simp at this

/-- Witness for C7 (amended): the query `"a"` parses to the single segment
`"a"`, which is non-empty. -/
theorem permissive_parse_amended_witness : ("a" : String) ≠ "" :=
  permissive_parse_amended.1 "a" ["a"] "a" (by decide) (by decide)

theorem setCursor_exhausted (s : Thumbs) (idx : Int) :
    (s.setCursor idx).exhausted = s.exhausted := by
  unfold Thumbs.setCursor
  split_ifs <;> rfl

theorem setCursor_assets (s : Thumbs) (idx : Int) :
    (s.setCursor idx).assets = s.assets := by
  unfold Thumbs.setCursor
  split_ifs <;> rfl

/-- Claim C8: a fetch in the exhausted state issues no request and leaves the
whole state (asset list included) unchanged; a completed fetch whose page is
shorter than the limit sets the exhausted flag; setting a different query
resets exhausted to false; setting the same query changes nothing. -/
theorem no_fetch_after_exhausted :
    (∀ (s : Thumbs) (limit : Nat) (page : List Asset),
        s.exhausted = true → s.fetch limit page = (s, false)) ∧
    (∀ (s : Thumbs) (limit : Nat) (page : List Asset),
        s.loading = false → s.exhausted = false → 0 < limit → page.length < limit →
          (s.fetch limit page).2 = true ∧ (s.fetch limit page).1.exhausted = true) ∧
    (∀ (s : Thumbs) (q : String), s.query ≠ some q → (s.setQuery q).exhausted = false) ∧
    (∀ (s : Thumbs) (q : String), s.query = some q → s.setQuery q = s) := by
  refine ⟨?_, ?_, ?_, ?_⟩
  · intro s limit page h
    simp [Thumbs.fetch, h]
  · intro s limit page hload hexh hlim hpage
    have hguard : (s.loading || s.exhausted) = false := by rw [hload, hexh]; rfl
    have hlim0 : ¬limit = 0 := by omega
    simp only [Thumbs.fetch, hguard, Bool.false_eq_true, if_false, hlim0]
    constructor
    · trivial
    · split
      · rw [setCursor_exhausted]
        simpa using hpage
      · simpa using hpage
  · intro s q h
    simp [Thumbs.setQuery, h]
  · intro s q h
    simp [Thumbs.setQuery, h]

/-- Witness for C8: in an exhausted state fetch is a request-free no-op; a
fresh state receiving an empty page with limit 10 becomes exhausted; setting
a new query on it resets the flag; re-setting the same query is the
identity. -/
theorem no_fetch_after_exhausted_witness :
    (Thumbs.fetch ⟨some "q", [], none, none, false, true⟩ 10 [] =
      (⟨some "q", [], none, none, false, true⟩, false)) ∧
    ((Thumbs.fetch ⟨some "q", [], none, none, false, false⟩ 10 []).2 = true ∧
      (Thumbs.fetch ⟨some "q", [], none, none, false, false⟩ 10 []).1.exhausted = true) ∧
    (Thumbs.setQuery ⟨some "q", [], none, none, false, true⟩ "r").exhausted = false ∧
    Thumbs.setQuery ⟨some "q", [], none, none, false, true⟩ "q" =
      ⟨some "q", [], none, none, false, true⟩ :=
  ⟨no_fetch_after_exhausted.1 _ 10 [] rfl,
   no_fetch_after_exhausted.2.1 _ 10 [] rfl rfl (by norm_num) (by decide),
   no_fetch_after_exhausted.2.2.1 _ "r" (by decide),
   no_fetch_after_exhausted.2.2.2 _ "q" rfl⟩

/-- Claim C9 counterexample: on an empty asset list, label.jsx `moveCursor`
clamps `-1 + 1` to `max 0 (min 0 (0 - 1)) = 0`, which is neither the `-1`
sentinel nor a valid index (there is none), so the cursor-bounds invariant is
not preserved by every cursor-moving operation. -/
theorem cursor_bounds_counterexample :
    moveCursorLabel (-1) 1 0 = 0 ∧
    ¬(moveCursorLabel (-1) 1 0 = -1 ∨
      moveCursorLabel (-1) 1 0 < ((0 : Nat) : Int)) := by decide

/-- Claim C9 amended: the thumbs.js cursor operations (`setCursor`,
`incCursor`, `decCursor`) all preserve the cursor-bounds invariant, and
`setCursor` ignores out-of-range indices on a non-empty list; label.jsx
`moveCursor` clamps into `[0, len-1]` provided the asset list is non-empty
(on an empty list it produces the out-of-bounds cursor 0). -/
theorem cursor_bounds_invariant :
    (∀ (s : Thumbs) (idx : Int), ThumbsInv s → ThumbsInv (s.setCursor idx)) ∧
    (∀ (s : Thumbs) (n : Int), ThumbsInv s → ThumbsInv (s.incCursor n)) ∧
    (∀ (s : Thumbs) (n : Int), ThumbsInv s → ThumbsInv (s.decCursor n)) ∧
    (∀ (s : Thumbs) (idx : Int), s.assets.length ≠ 0 →
        ¬(0 ≤ idx ∧ idx < (s.assets.length : Int)) → s.setCursor idx = s) ∧
    (∀ (cur inc : Int) (len : Nat), 0 < len →
        0 ≤ moveCursorLabel cur inc len ∧ moveCursorLabel cur inc len < (len : Int)) := by
  have hset : ∀ (s : Thumbs) (idx : Int), ThumbsInv s → ThumbsInv (s.setCursor idx) := by
    intro s idx h
    unfold Thumbs.setCursor
    split_ifs with h0 h1
    · exact Or.inl ⟨rfl, rfl⟩
    · refine Or.inr ⟨idx.toNat, ?_, ?_, rfl⟩
      · simp [Int.toNat_of_nonneg h1.1]
      · obtain ⟨ha, hb⟩ := h1
        show idx.toNat < s.assets.length
        omega
    · exact h
  refine ⟨hset, fun s n h => hset s _ h, fun s n h => hset s _ h, ?_, ?_⟩
  · intro s idx h0 hrange
    unfold Thumbs.setCursor
    rw [if_neg h0, if_neg hrange]
  · intro cur inc len hlen
    constructor
    · exact le_max_left 0 _
    · refine max_lt (by exact_mod_cast hlen) (lt_of_le_of_lt (min_le_right _ _) ?_)
      omega

/-- Witness for C9 (amended): from the empty initial state (null cursor, no
assets) every operation keeps the invariant, out-of-range setCursor on a
one-asset list is the identity, and moveCursor on a one-asset list stays in
bounds. -/
theorem cursor_bounds_invariant_witness :
    ThumbsInv (Thumbs.setCursor ⟨none, [], none, none, false, false⟩ 0) ∧
    ThumbsInv (Thumbs.incCursor ⟨none, [], none, none, false, false⟩ 1) ∧
    ThumbsInv (Thumbs.decCursor ⟨none, [], none, none, false, false⟩ 1) ∧
    Thumbs.setCursor ⟨none, [⟨1, [], 0⟩], none, some 0, false, false⟩ 5 =
      ⟨none, [⟨1, [], 0⟩], none, some 0, false, false⟩ ∧
    (0 ≤ moveCursorLabel 0 1 1 ∧ moveCursorLabel 0 1 1 < (1 : Int)) :=
  ⟨cursor_bounds_invariant.1 _ 0 (Or.inl ⟨rfl, rfl⟩),
   cursor_bounds_invariant.2.1 _ 1 (Or.inl ⟨rfl, rfl⟩),
   cursor_bounds_invariant.2.2.1 _ 1 (Or.inl ⟨rfl, rfl⟩),
   cursor_bounds_invariant.2.2.2.1 _ 5 (by decide) (by decide),
   cursor_bounds_invariant.2.2.2.2 0 1 1 (by decide)⟩

theorem bump_pos (m : List (String × Nat)) (t : String)
    (h : ∀ kv ∈ m, 1 ≤ kv.2) : ∀ kv ∈ bump m t, 1 ≤ kv.2 := by
  intro kv hkv
  unfold bump at hkv
  split_ifs at hkv
  · obtain ⟨kv0, hkv0, heq⟩ := List.mem_map.mp hkv
    by_cases ht : kv0.1 = t
    · rw [if_pos ht] at heq
      rw [← heq]
      exact Nat.le_succ_of_le (h kv0 hkv0)
    · rw [if_neg ht] at heq
      exact heq ▸ h kv0 hkv0
  · rcases List.mem_append.mp hkv with h1 | h2
    · exact h kv h1
    · rw [List.mem_singleton.mp h2]

theorem foldl_bump_pos (ts : List String) :
    ∀ m, (∀ kv ∈ m, 1 ≤ kv.2) → ∀ kv ∈ ts.foldl bump m, 1 ≤ kv.2 := by
  induction ts with
  | nil => intro m h; exact h
  | cons t ts ih => intro m h; exact ih (bump m t) (bump_pos m t h)

theorem foldl_asset_bump_pos (assets : List Asset) :
    ∀ m, (∀ kv ∈ m, 1 ≤ kv.2) →
      ∀ kv ∈ assets.foldl (fun m a => a.tags.foldl bump m) m, 1 ≤ kv.2 := by
  induction assets with
  | nil => intro m h; exact h
  | cons a assets ih => intro m h; exact ih _ (foldl_bump_pos a.tags m h)

/-- Claim C10: `countTags` maps a null, undefined or empty asset list to the
empty mapping instead of failing, and every tag appearing in its result has a
count of at least 1. -/
theorem count_tags_total :
    countTags none = [] ∧ countTags (some []) = [] ∧
    (∀ (assets : List Asset) (k : String) (v : Nat),
        (k, v) ∈ countTags (some assets) → 1 ≤ v) :=
  ⟨rfl, rfl, fun assets k v h =>
    foldl_asset_bump_pos assets [] (by intro kv hkv; simp at hkv) (k, v) h⟩

/-- Witness for C10: on a one-asset list tagged `"x"`, the count of `"x"` is
1, which is at least 1. -/
theorem count_tags_total_witness : 1 ≤ 1 :=
  count_tags_total.2.2 [⟨1, ["x"], 0⟩] "x" 1 (by decide)

end Illuminatus
